import Mathlib

/-!
Shallow embedding of the terraform-module-gcs-publisher action.

The embedded code is `src/unnamed/part_003` (class `GCSService`, methods
`uploadToGCS` and `cleanupOldVersions`; the compiled twin is
`src/dist/services/gcs-service.js`) and `src/unnamed/part_008`
(`getValidatedInputs`, `validateInputs`, `processModuleUpload`).

Modelling decisions:
* Object keys, version strings and log payloads are `List Char`.
* JavaScript numbers reaching the retention logic come from
  `parseInt(..., 10)` and can be `NaN`; they are modelled by `JsNum`
  (an integer or `NaN`).
* The regular expression
  `^<moduleFolder>/<moduleName>-(\d+\.\d+\.\d+)\.zip$` is embedded as an
  explicit anchored matcher (`moduleFileMatch`).  The folder and module
  name are interpolated literally into the pattern; module names are
  validated upstream to `[a-zA-Z0-9_-]+`, which contains no regex
  metacharacters, so the literal-prefix reading is exact.
* `semver.compare` on the strings captured by that regex (always plain
  numeric triples) is numeric comparison of major, minor, patch; the
  JavaScript `Array.prototype.sort` is stable (ECMAScript), and for a
  total preorder the stable sorted permutation is unique, so the sort is
  embedded as `List.insertionSort` over the descending-version relation.
* I/O effects (`core.info`, `bucket.upload`, `makePublic`, `exists`,
  `getFiles`, `file.delete`) are recorded as an event trace; results of
  the external store (the listing, the post-upload existence check,
  which deletes fail) are inputs to the embedded functions.
-/

abbrev Chars := List Char

/-- A JavaScript number as it reaches the retention logic: an integer or `NaN`
(`parseInt` never produces non-integral finite values in these code paths). -/
inductive JsNum where
  | nan : JsNum
  | int : Int → JsNum
deriving DecidableEq

/-- JS comparison `n <= k` with `n` a known array length and `k` a `JsNum`;
any comparison with `NaN` is false. -/
def jsLeNum (n : Nat) (k : JsNum) : Bool :=
  match k with
  | JsNum.nan => false
  | JsNum.int i => decide ((n : Int) ≤ i)

/-- JS comparison `k <= 0` (the `validateInputs` guard); false when `k` is `NaN`. -/
def jsLeZero (k : JsNum) : Bool :=
  match k with
  | JsNum.nan => false
  | JsNum.int i => decide (i ≤ 0)

/-- Start index used by `Array.prototype.slice(start)`: `ToIntegerOrInfinity`
maps `NaN` to `0`; a negative start counts from the end, clamped at `0`. -/
def sliceIndex (len : Nat) (k : JsNum) : Nat :=
  match k with
  | JsNum.nan => 0
  | JsNum.int i => if i < 0 then ((len : Int) + i).toNat else i.toNat

/-- `Array.prototype.slice(start)` with a single argument. -/
def jsSlice (l : List α) (k : JsNum) : List α :=
  l.drop (sliceIndex l.length k)

/-- Strip an exact literal from the front of a string: `some rest` when
`s = lit ++ rest`, otherwise `none`.  This is how the anchored regex consumes
the interpolated `<moduleFolder>/<moduleName>-` literal. -/
def dropLit : Chars → Chars → Option Chars
  | [], s => some s
  | _ :: _, [] => none
  | c :: p, d :: s => if c = d then dropLit p s else none

/-- Maximal run of digits at the front of the string (`\d+`): `none` when the
run is empty, otherwise the run and the remainder. -/
def digitsSplit (s : Chars) : Option (Chars × Chars) :=
  let d := s.takeWhile Char.isDigit
  if d.isEmpty then none else some (d, s.dropWhile Char.isDigit)

/-- Match `\d+\.\d+\.\d+` at the front of the string, returning the three
digit runs and the remainder after the third run. -/
def tripleSplit (s : Chars) : Option ((Chars × Chars × Chars) × Chars) :=
  match digitsSplit s with
  | none => none
  | some (a, r1) =>
    match r1 with
    | '.' :: r1h =>
      match digitsSplit r1h with
      | none => none
      | some (b, r2) =>
        match r2 with
        | '.' :: r2h =>
          match digitsSplit r2h with
          | none => none
          | some (c, r3) => some ((a, b, c), r3)
        | _ => none
    | _ => none

/-- Reassemble the three digit runs into the captured version string. -/
def joinTriple (a b c : Chars) : Chars :=
  a ++ '.' :: (b ++ '.' :: c)

/-- A string consisting exactly of `\d+\.\d+\.\d+` (the language of the
version capture group). -/
def isTriple (v : Chars) : Bool :=
  match tripleSplit v with
  | some (_, r) => r.isEmpty
  | none => false

/-- Embedding of `key.match(moduleFileRegex)` for
`moduleFileRegex = ^<moduleFolder>/<moduleName>-(\d+\.\d+\.\d+)\.zip$`
(part_003 lines 120-126): `some capture` on a match, else `none`. -/
def moduleFileMatch (moduleFolder moduleName key : Chars) : Option Chars :=
  match dropLit (moduleFolder ++ '/' :: (moduleName ++ ['-'])) key with
  | none => none
  | some rest =>
    match tripleSplit rest with
    | none => none
    | some ((a, b, c), r) =>
      if r = ".zip".toList then some (joinTriple a b c) else none

/-- Numeric value of a digit run (how semver reads a numeric component). -/
def digitsVal (s : Chars) : Nat :=
  s.foldl (fun acc c => 10 * acc + (c.toNat - 48)) 0

/-- Major, minor and patch of a captured version string.  The strings fed to
the sort all come from the capture group, so they are always full triples;
the `none` fallback is unreachable on those inputs.  This numeric reading is
only ever consulted on captures that pass `semverOkTriple` — on any other
capture the real comparator throws instead of ordering, which
`jsSortVersions` models. -/
def parsedTriple (v : Chars) : Nat × Nat × Nat :=
  match tripleSplit v with
  | some ((a, b, c), _) => (digitsVal a, digitsVal b, digitsVal c)
  | none => (0, 0, 0)

/-- Lexicographic `≤` on (major, minor, patch): the order `semver.compare`
implements on plain numeric versions. -/
def tripleLe (x y : Nat × Nat × Nat) : Bool :=
  decide (x.1 < y.1) ||
    (decide (x.1 = y.1) &&
      (decide (x.2.1 < y.2.1) ||
        (decide (x.2.1 = y.2.1) && decide (x.2.2 ≤ y.2.2))))

/-- One entry of the `versionFiles` array built by `cleanupOldVersions`:
the key of the stored object and its captured version string. -/
structure VersionFile where
  name : Chars
  version : Chars
deriving DecidableEq

/-- The sort order of `versionFiles.sort((a, b) => semver.compare(b.version,
a.version))` on versions the semver parser accepts: `a` sorts no later than
`b` exactly when the version of `b` is numerically at most the version of `a`
(descending by version).  On versions semver rejects the real comparator
throws rather than ordering; that partiality lives in `jsSortVersions`, which
only uses this relation when every capture passes `semverOkTriple`. -/
def versionDescRel (a b : VersionFile) : Prop :=
  tripleLe (parsedTriple b.version) (parsedTriple a.version) = true

instance : DecidableRel versionDescRel :=
  fun a b =>
    inferInstanceAs
      (Decidable (tripleLe (parsedTriple b.version) (parsedTriple a.version) = true))

/-- Largest integer semver accepts in a component:
`Number.MAX_SAFE_INTEGER`. -/
def maxSafeInteger : Nat := 9007199254740991

/-- A semver numeric component: digits with no leading zero. -/
def numericNoLead (s : Chars) : Bool :=
  match s with
  | [] => false
  | ['0'] => true
  | '0' :: _ :: _ => false
  | _ => s.all Char.isDigit

/-- A digit run the semver parser accepts as a component: no leading zero and
value at most `Number.MAX_SAFE_INTEGER`. -/
def semverNumOk (d : Chars) : Bool :=
  numericNoLead d && decide (digitsVal d ≤ maxSafeInteger)

/-- Whether semver 7.x accepts a capture-shaped version string: at most 256
characters overall and every component free of leading zeros and within
`Number.MAX_SAFE_INTEGER`.  The regex capture `\d+\.\d+\.\d+` is wider than
this (e.g. `01.0.0`), and on the excess `new SemVer(v)` throws
`TypeError: Invalid Version`. -/
def semverOkTriple (v : Chars) : Bool :=
  decide (v.length ≤ 256) &&
    (match tripleSplit v with
     | some ((a, b, c), r) =>
       r.isEmpty && semverNumOk a && semverNumOk b && semverNumOk c
     | none => false)

/-- Whether `versionFiles.sort((a, b) => semver.compare(b.version, a.version))`
throws: `semver.compare` parses both arguments on every call, and with two or
more elements the engine sort invokes the comparator on every element at
least once (run detection compares each element with a neighbour), so a
capture semver rejects always gets parsed and throws; with fewer than two
elements the comparator is never invoked. -/
def sortThrows (l : List VersionFile) : Bool :=
  decide (2 ≤ l.length) && !(l.all (fun f => semverOkTriple f.version))

/-- Embedding of the candidate sort: `none` when the comparator throws
`Invalid Version` (the error message names whichever rejected capture the
engine compares first — unspecified here); otherwise the stable descending
sort, which for a total preorder is the unique stable sorted permutation,
written as insertion sort. -/
def jsSortVersions (l : List VersionFile) : Option (List VersionFile) :=
  if sortThrows l then none else some (List.insertionSort versionDescRel l)

/-- The filter loop of `cleanupOldVersions` (part_003 lines 124-136): keep the
objects whose key matches the module-file regex and whose captured version
differs from the version currently being published, in listing order. -/
def versionCandidates (moduleFolder moduleName currentVersion : Chars)
    (files : List Chars) : List VersionFile :=
  files.filterMap (fun key =>
    match moduleFileMatch moduleFolder moduleName key with
    | some v => if v = currentVersion then none else some ⟨key, v⟩
    | none => none)

/-- The deletion selector of `cleanupOldVersions` (part_003 lines 138-152):
an empty set when the candidate count is `<=` keepVersions (JS comparison);
otherwise `sorted.slice(keepVersions)` of the candidates sorted descending by
version — unless the sort throws `Invalid Version` (`none`), in which case no
deletion set is ever produced and the run fails. -/
def versionsToDelete (moduleFolder moduleName currentVersion : Chars)
    (keepVersions : JsNum) (files : List Chars) : Option (List VersionFile) :=
  let vf := versionCandidates moduleFolder moduleName currentVersion files
  if jsLeNum vf.length keepVersions then some []
  else (jsSortVersions vf).map (fun sorted => jsSlice sorted keepVersions)

example :
    versionsToDelete ("modules/m".toList) ("m".toList) ("1.0.0".toList)
        (JsNum.int 1)
        [("modules/m/m-0.1.0.zip".toList), ("modules/m/m-0.2.0.zip".toList)] =
      some [⟨"modules/m/m-0.1.0.zip".toList, "0.1.0".toList⟩] := by decide

example :
    versionsToDelete ("modules/m".toList) ("m".toList) ("1.0.0".toList)
        (JsNum.int 1)
        [("modules/m/m-01.0.0.zip".toList), ("modules/m/m-0.2.0.zip".toList)] =
      none := by decide

/-- The `core.info` log lines emitted by the embedded code, with their
dynamic payloads. -/
inductive LogMsg where
  | fileHash (h : Chars)
  | uploadingTo (dest : Chars)
  | noOldVersions (keep : JsNum) (found : Nat)
  | cleaningUp (count : Nat)
  | deletingOldVersion (nm : Chars)
  | cleanupDone (keep : JsNum)
deriving DecidableEq

/-- Observable I/O steps of the upload and retention stages. -/
inductive Event where
  | upload (dest : Chars)
  | makePublic (dest : Chars)
  | existsCheck (dest : Chars)
  | listFiles (folderPre : Chars)
  | deleteFile (nm : Chars)
  | info (m : LogMsg)
deriving DecidableEq

/-- `e1` occurs strictly before `e2` in the trace `l` (by first occurrence). -/
def eventBefore (e1 e2 : Event) (l : List Event) : Prop :=
  l.indexOf e1 < l.indexOf e2

/-- The errors thrown on the embedded paths. -/
inductive Err where
  | invalidBucketName (n : Chars)
  | invalidModuleName (n : Chars)
  | modulePathMissing (p : Chars)
  | invalidModuleVersion (v : Chars)
  | invalidKeepVersions (k : JsNum)
  | invalidVersion
  | uploadVerificationFailed (dest : Chars)
  | deleteFailed (nm : Chars)
deriving DecidableEq

/-- Public URL returned by `uploadToGCS` on success. -/
def publicUrl (bucketName dest : Chars) : Chars :=
  "https://storage.googleapis.com/".toList ++ bucketName ++ '/' :: dest

/-- Embedding of `GCSService.uploadToGCS` (part_003 lines 49-87): log, upload
with metadata, make the object public, then check existence; throw the
verification error when the check reports false, else return the public URL.
`existsAfterUpload` is the answer of the store to the existence check; the upload
and makePublic calls themselves are assumed not to fault (their network
failures are external and abort everything earlier). -/
def uploadToGCS (existsAfterUpload : Bool) (bucketName dest : Chars) :
    List Event × Except Err Chars :=
  ([Event.info (LogMsg.uploadingTo dest), Event.upload dest,
    Event.makePublic dest, Event.existsCheck dest],
   if existsAfterUpload then Except.ok (publicUrl bucketName dest)
   else Except.error (Err.uploadVerificationFailed dest))

/-- Per-object trace of the deletion loop body (part_003 lines 156-159): the
log line naming the object, then the delete call. -/
def deleteEvents (f : VersionFile) : List Event :=
  [Event.info (LogMsg.deletingOldVersion f.name), Event.deleteFile f.name]

/-- The deletion executor (part_003 lines 156-159): one sequential delete per
selected object, in selector order; a failing delete throws and stops the
loop.  `deleteFails` tells which object keys the store fails to delete. -/
def runDeletes (deleteFails : Chars → Bool) :
    List VersionFile → List Event × Option Err
  | [] => ([], none)
  | f :: fs =>
    if deleteFails f.name then (deleteEvents f, some (Err.deleteFailed f.name))
    else
      let rest := runDeletes deleteFails fs
      (deleteEvents f ++ rest.1, rest.2)

/-- Embedding of `GCSService.cleanupOldVersions` (part_003 lines 103-164):
list the folder, filter and parse the version files of the module, return with the
"no old versions" log when at most `keepVersions` candidates remain, else sort
descending — a sort that throws `Invalid Version` aborts the method right
there, deleting nothing — then slice off the newest `keepVersions` and delete
the rest one by one, logging each; the closing success log is only reached
when every delete succeeded.  `files` is the listing the store returns for
the folder. -/
def cleanupOldVersions (moduleFolder moduleName currentVersion : Chars)
    (keepVersions : JsNum) (files : List Chars) (deleteFails : Chars → Bool) :
    List Event × Option Err :=
  let vf := versionCandidates moduleFolder moduleName currentVersion files
  if jsLeNum vf.length keepVersions then
    ([Event.listFiles moduleFolder,
      Event.info (LogMsg.noOldVersions keepVersions vf.length)], none)
  else
    match jsSortVersions vf with
    | none => ([Event.listFiles moduleFolder], some Err.invalidVersion)
    | some sorted =>
      let toDel := jsSlice sorted keepVersions
      let del := runDeletes deleteFails toDel
      match del.2 with
      | some e =>
        (Event.listFiles moduleFolder ::
          Event.info (LogMsg.cleaningUp toDel.length) :: del.1, some e)
      | none =>
        (Event.listFiles moduleFolder ::
          Event.info (LogMsg.cleaningUp toDel.length) :: del.1 ++
            [Event.info (LogMsg.cleanupDone keepVersions)], none)

/-- The validated option record built by `getValidatedInputs` (part_008
lines 80-92).  The credential payload is irrelevant to every claim and
omitted; `modulePath` is kept because `validateInputs` names it. -/
structure ModuleOptions where
  bucketName : Chars
  moduleName : Chars
  moduleVersion : Chars
  modulePath : Chars
  deleteOldVersions : Bool
  keepVersions : JsNum
deriving DecidableEq

/-- The `gs://` module URL returned by `processModuleUpload`. -/
def gsUrl (bucketName dest : Chars) : Chars :=
  "gs://".toList ++ bucketName ++ '/' :: dest

/-- Embedding of `processModuleUpload` (part_008 lines 146-160): log the
integrity hash, build the destination key, upload (which verifies existence),
then run the retention cleanup only when requested and only after the upload
stage returned successfully.  The behaviour of the store is passed in as
`existsAfterUpload`, the folder listing `files`, and `deleteFails`. -/
def processModuleUpload (options : ModuleOptions) (existsAfterUpload : Bool)
    (files : List Chars) (deleteFails : Chars → Bool) (fileHash : Chars) :
    List Event × Except Err Chars :=
  let moduleFolder := "modules/".toList ++ options.moduleName
  let dest := moduleFolder ++ '/' ::
    (options.moduleName ++ '-' :: (options.moduleVersion ++ ".zip".toList))
  let up := uploadToGCS existsAfterUpload options.bucketName dest
  match up.2 with
  | Except.error e => (Event.info (LogMsg.fileHash fileHash) :: up.1, Except.error e)
  | Except.ok _ =>
    if options.deleteOldVersions then
      let cl := cleanupOldVersions moduleFolder options.moduleName
        options.moduleVersion options.keepVersions files deleteFails
      match cl.2 with
      | some e =>
        (Event.info (LogMsg.fileHash fileHash) :: up.1 ++ cl.1, Except.error e)
      | none =>
        (Event.info (LogMsg.fileHash fileHash) :: up.1 ++ cl.1,
         Except.ok (gsUrl options.bucketName dest))
    else
      (Event.info (LogMsg.fileHash fileHash) :: up.1,
       Except.ok (gsUrl options.bucketName dest))

/-- Whitespace skipped by `parseInt` before reading digits. -/
def isWs (c : Char) : Bool :=
  c = ' ' || c = '\t' || c = '\n' || c = '\r'

/-- Embedding of JavaScript `parseInt(s, 10)`: skip leading whitespace, read
an optional sign and then the maximal run of leading decimal digits; `NaN`
when that run is empty. -/
def parseJsInt (s : Chars) : JsNum :=
  let t := s.dropWhile isWs
  match t with
  | '-' :: r =>
    let d := r.takeWhile Char.isDigit
    if d.isEmpty then JsNum.nan else JsNum.int (-(digitsVal d : Int))
  | '+' :: r =>
    let d := r.takeWhile Char.isDigit
    if d.isEmpty then JsNum.nan else JsNum.int (digitsVal d)
  | r =>
    let d := r.takeWhile Char.isDigit
    if d.isEmpty then JsNum.nan else JsNum.int (digitsVal d)

/-- The keep-versions coercion inside `getValidatedInputs` (part_008 line 88):
`parseInt` of the raw keep-versions input with the literal default 5
substituted when the raw input is empty, hence falsy. -/
def inputKeepVersions (raw : Chars) : JsNum :=
  parseJsInt (if raw = [] then "5".toList else raw)

/-- Character class `[a-z0-9]` of the bucket-name regex. -/
def bucketEndCh (c : Char) : Bool :=
  c.isLower || c.isDigit

/-- Character class `[a-z0-9_.-]` of the bucket-name regex. -/
def bucketMidCh (c : Char) : Bool :=
  c.isLower || c.isDigit || c = '_' || c = '.' || c = '-'

/-- Embedding of the regex in `validateBucketName`,
`^[a-z0-9][a-z0-9_.-]{1,61}[a-z0-9]$` (utils/validation): 3 to 63 characters,
first and last in `[a-z0-9]`, the middle in `[a-z0-9_.-]`. -/
def validBucketName (s : Chars) : Bool :=
  decide (3 ≤ s.length) && decide (s.length ≤ 63) &&
    (match s with
     | [] => false
     | c :: rest =>
       bucketEndCh c &&
         (match rest.getLast? with
          | none => false
          | some d => bucketEndCh d) &&
         rest.dropLast.all bucketMidCh)

/-- Embedding of the regex in `validateModuleName`, `^[a-zA-Z0-9_-]+$`. -/
def validModuleName (s : Chars) : Bool :=
  !s.isEmpty && s.all (fun c => c.isAlphanum || c = '_' || c = '-')

/-- Split a string at every `'.'` (used for prerelease/build identifier
lists). -/
def splitDots : Chars → List Chars
  | [] => [[]]
  | '.' :: t => [] :: splitDots t
  | c :: t =>
    match splitDots t with
    | h :: r => (c :: h) :: r
    | [] => [[c]]

/-- Longest prefix free of characters matching `stop`, and the remainder. -/
def breakAt (stop : Char → Bool) : Chars → Chars × Chars
  | [] => ([], [])
  | c :: t =>
    if stop c then ([], c :: t)
    else
      let r := breakAt stop t
      (c :: r.1, r.2)

/-- Semver identifier characters `[0-9A-Za-z-]`. -/
def identCh (c : Char) : Bool :=
  c.isAlphanum || c = '-'

/-- A semver prerelease identifier: nonempty, alphanumeric/hyphen, and when
purely numeric it must carry no leading zero. -/
def preRelId (s : Chars) : Bool :=
  !s.isEmpty && s.all identCh && (!s.all Char.isDigit || numericNoLead s)

/-- A semver build identifier: nonempty, alphanumeric/hyphen. -/
def buildIdOk (s : Chars) : Bool :=
  !s.isEmpty && s.all identCh

/-- Modelled from the spec: syntactically valid semantic version,
`MAJOR.MINOR.PATCH[-PRERELEASE][+BUILD]` (spec section 6).  This stands in
for `semver.valid` of the external `semver` npm package, which is a
dependency, not among the sources of this repository. -/
def semverValid (s : Chars) : Bool :=
  let core_ := breakAt (fun c => c = '-' || c = '+') s
  (match splitDots core_.1 with
   | [x, y, z] => numericNoLead x && numericNoLead y && numericNoLead z
   | _ => false) &&
    (match core_.2 with
     | [] => true
     | '-' :: r =>
       let pr := breakAt (fun c => c = '+') r
       (splitDots pr.1).all preRelId &&
         (match pr.2 with
          | [] => true
          | '+' :: b => (splitDots b).all buildIdOk
          | _ => false)
     | '+' :: b => (splitDots b).all buildIdOk
     | _ => false)

example : semverValid ("1.0.0".toList) = true := by decide
example : semverValid ("1.0.0-beta".toList) = true := by decide
example : semverValid ("1.0.0-beta.1+build.5".toList) = true := by decide
example : semverValid ("01.0.0".toList) = false := by decide
example : semverValid ("1.0".toList) = false := by decide

/-- Embedding of `validateInputs` (part_008 lines 98-115): bucket name,
module name, module path existence, semver validity of the version, then the
`keepVersions <= 0` guard; `none` when every check passes.
`modulePathExists` is the answer `fs.existsSync` gives for the path. -/
def validateInputs (options : ModuleOptions) (modulePathExists : Bool) :
    Option Err :=
  if !validBucketName options.bucketName then
    some (Err.invalidBucketName options.bucketName)
  else if !validModuleName options.moduleName then
    some (Err.invalidModuleName options.moduleName)
  else if !modulePathExists then
    some (Err.modulePathMissing options.modulePath)
  else if !semverValid options.moduleVersion then
    some (Err.invalidModuleVersion options.moduleVersion)
  else if jsLeZero options.keepVersions then
    some (Err.invalidKeepVersions options.keepVersions)
  else none

/-- The string is empty or starts with a non-digit (so a digit run appended
in front of it is maximal). -/
def notDigitHead : Chars → Prop
  | [] => True
  | c :: _ => Char.isDigit c = false

theorem dropLit_eq_some : ∀ p s r : Chars, dropLit p s = some r → s = p ++ r
  | [], s, r, h => by
    simp only [dropLit, Option.some.injEq] at h
    simp [h]
  | c :: p, [], r, h => by simp [dropLit] at h
  | c :: p, d :: s, r, h => by
    by_cases hc : c = d
    · subst hc
      simp only [dropLit, if_pos rfl] at h
      simpa using dropLit_eq_some p s r h
    · simp [dropLit, hc] at h

theorem dropLit_append : ∀ p r : Chars, dropLit p (p ++ r) = some r
  | [], r => rfl
  | c :: p, r => by simp [dropLit, dropLit_append p r]

theorem takeWhile_digits_append (d r : Chars)
    (hall : ∀ c ∈ d, Char.isDigit c = true) (hr : notDigitHead r) :
    (d ++ r).takeWhile Char.isDigit = d ∧ (d ++ r).dropWhile Char.isDigit = r := by
  induction d with
  | nil =>
    simp only [List.nil_append]
    cases r with
    | nil => simp
    | cons c t =>
      simp only [notDigitHead] at hr
      simp [List.takeWhile_cons, List.dropWhile_cons, hr]
  | cons c d ih =>
    have hc : Char.isDigit c = true := hall c (List.mem_cons_self c d)
    have ih2 := ih (fun x hx => hall x (List.mem_cons_of_mem c hx))
    simp [List.takeWhile_cons, List.dropWhile_cons, hc, ih2.1, ih2.2]

theorem digitsSplit_eq_some {s d r : Chars} (h : digitsSplit s = some (d, r)) :
    s = d ++ r ∧ d ≠ [] ∧ ∀ c ∈ d, Char.isDigit c = true := by
  unfold digitsSplit at h
  by_cases he : (s.takeWhile Char.isDigit).isEmpty
  · simp [he] at h
  · simp only [he, Bool.false_eq_true, if_false, Option.some.injEq, Prod.mk.injEq] at h
    obtain ⟨hd, hr⟩ := h
    refine ⟨?_, ?_, ?_⟩
    · rw [← hd, ← hr]; exact (List.takeWhile_append_dropWhile ..).symm
    · intro hnil; rw [← hd] at hnil; simp [hnil] at he
    · intro c hc; rw [← hd] at hc; exact List.mem_takeWhile_imp hc

theorem digitsSplit_append {d : Chars} (r : Chars) (hne : d ≠ [])
    (hall : ∀ c ∈ d, Char.isDigit c = true) (hr : notDigitHead r) :
    digitsSplit (d ++ r) = some (d, r) := by
  have h := takeWhile_digits_append d r hall hr
  unfold digitsSplit
  simp [h.1, h.2, hne]

theorem tripleSplit_eq_some {s : Chars} {a b c r : Chars}
    (h : tripleSplit s = some ((a, b, c), r)) :
    s = a ++ '.' :: (b ++ '.' :: (c ++ r)) ∧
      (a ≠ [] ∧ ∀ x ∈ a, Char.isDigit x = true) ∧
      (b ≠ [] ∧ ∀ x ∈ b, Char.isDigit x = true) ∧
      (c ≠ [] ∧ ∀ x ∈ c, Char.isDigit x = true) := by
  unfold tripleSplit at h
  cases h1 : digitsSplit s with
  | none => rw [h1] at h; exact absurd h (by simp)
  | some p1 =>
    rw [h1] at h
    obtain ⟨a1, r1⟩ := p1
    obtain ⟨hs1, hne1, hall1⟩ := digitsSplit_eq_some h1
    cases r1 with
    | nil => exact absurd h (by simp)
    | cons c1 t1 =>
      by_cases hc1 : c1 = '.'
      · subst hc1
        simp only at h
        cases h2 : digitsSplit t1 with
        | none => rw [h2] at h; exact absurd h (by simp)
        | some p2 =>
          rw [h2] at h
          obtain ⟨a2, r2⟩ := p2
          obtain ⟨hs2, hne2, hall2⟩ := digitsSplit_eq_some h2
          cases r2 with
          | nil => exact absurd h (by simp)
          | cons c2 t2 =>
            by_cases hc2 : c2 = '.'
            · subst hc2
              simp only at h
              cases h3 : digitsSplit t2 with
              | none => rw [h3] at h; exact absurd h (by simp)
              | some p3 =>
                rw [h3] at h
                obtain ⟨a3, r3⟩ := p3
                obtain ⟨hs3, hne3, hall3⟩ := digitsSplit_eq_some h3
                simp only [Option.some.injEq, Prod.mk.injEq] at h
                obtain ⟨⟨ha, hb, hc⟩, hrr⟩ := h
                subst ha; subst hb; subst hc; subst hrr
                subst hs3; subst hs2; subst hs1
                exact ⟨rfl, ⟨hne1, hall1⟩, ⟨hne2, hall2⟩, ⟨hne3, hall3⟩⟩
            · cases t2 with
              | nil => simp [hc2] at h
              | cons x y => simp [hc2] at h
      · cases t1 with
        | nil => simp [hc1] at h
        | cons x y => simp [hc1] at h

theorem tripleSplit_append {a b c : Chars} (r : Chars)
    (ha : a ≠ [] ∧ ∀ x ∈ a, Char.isDigit x = true)
    (hb : b ≠ [] ∧ ∀ x ∈ b, Char.isDigit x = true)
    (hc : c ≠ [] ∧ ∀ x ∈ c, Char.isDigit x = true)
    (hr : notDigitHead r) :
    tripleSplit (a ++ '.' :: (b ++ '.' :: (c ++ r))) = some ((a, b, c), r) := by
  have hdot : notDigitHead ('.' :: (b ++ '.' :: (c ++ r))) := by
    show Char.isDigit '.' = false; decide
  have hdot2 : notDigitHead ('.' :: (c ++ r)) := by
    show Char.isDigit '.' = false; decide
  have e1 := digitsSplit_append ('.' :: (b ++ '.' :: (c ++ r))) ha.1 ha.2 hdot
  have e2 := digitsSplit_append ('.' :: (c ++ r)) hb.1 hb.2 hdot2
  have e3 := digitsSplit_append r hc.1 hc.2 hr
  unfold tripleSplit
  rw [e1]
  simp only
  rw [e2]
  simp only
  rw [e3]

theorem isTriple_joinTriple {a b c : Chars}
    (ha : a ≠ [] ∧ ∀ x ∈ a, Char.isDigit x = true)
    (hb : b ≠ [] ∧ ∀ x ∈ b, Char.isDigit x = true)
    (hc : c ≠ [] ∧ ∀ x ∈ c, Char.isDigit x = true) :
    isTriple (joinTriple a b c) = true := by
  have h := tripleSplit_append [] ha hb hc trivial
  rw [List.append_nil] at h
  unfold isTriple joinTriple
  rw [h]
  rfl

theorem isTriple_elim {v : Chars} (h : isTriple v = true) :
    ∃ a b c, v = joinTriple a b c ∧
      (a ≠ [] ∧ ∀ x ∈ a, Char.isDigit x = true) ∧
      (b ≠ [] ∧ ∀ x ∈ b, Char.isDigit x = true) ∧
      (c ≠ [] ∧ ∀ x ∈ c, Char.isDigit x = true) := by
  unfold isTriple at h
  cases h1 : tripleSplit v with
  | none => rw [h1] at h; exact absurd h (by simp)
  | some p =>
    rw [h1] at h
    obtain ⟨⟨a, b, c⟩, r⟩ := p
    have hr : r = [] := by simpa [List.isEmpty_iff] using h
    subst hr
    obtain ⟨hv, ha, hb, hc⟩ := tripleSplit_eq_some h1
    refine ⟨a, b, c, ?_, ha, hb, hc⟩
    rw [hv]
    simp [joinTriple]

theorem moduleFileMatch_eq_some {mf mn key v : Chars}
    (h : moduleFileMatch mf mn key = some v) :
    key = mf ++ '/' :: (mn ++ '-' :: (v ++ ".zip".toList)) ∧ isTriple v = true := by
  unfold moduleFileMatch at h
  cases h1 : dropLit (mf ++ '/' :: (mn ++ ['-'])) key with
  | none => rw [h1] at h; exact absurd h (by simp)
  | some rest =>
    rw [h1] at h
    dsimp only at h
    have hkey := dropLit_eq_some _ _ _ h1
    cases h2 : tripleSplit rest with
    | none => rw [h2] at h; exact absurd h (by simp)
    | some p =>
      rw [h2] at h
      obtain ⟨⟨a, b, c⟩, r⟩ := p
      dsimp only at h
      by_cases hz : r = ".zip".toList
      · rw [if_pos hz] at h
        have hv : joinTriple a b c = v := by simpa using h
        obtain ⟨hrest, ha, hb, hc⟩ := tripleSplit_eq_some h2
        subst hz
        constructor
        · rw [hkey, hrest, ← hv]
          simp [joinTriple, List.append_assoc]
        · rw [← hv]; exact isTriple_joinTriple ha hb hc
      · rw [if_neg hz] at h
        exact absurd h (by simp)

theorem moduleFileMatch_roundTrip (mf mn v : Chars) (hv : isTriple v = true) :
    moduleFileMatch mf mn (mf ++ '/' :: (mn ++ '-' :: (v ++ ".zip".toList))) =
      some v := by
  obtain ⟨a, b, c, hjoin, ha, hb, hc⟩ := isTriple_elim hv
  have hkey : mf ++ '/' :: (mn ++ '-' :: (v ++ ".zip".toList)) =
      (mf ++ '/' :: (mn ++ ['-'])) ++ (v ++ ".zip".toList) := by
    simp [List.append_assoc]
  have hrest : v ++ ".zip".toList =
      a ++ '.' :: (b ++ '.' :: (c ++ ".zip".toList)) := by
    rw [hjoin]; simp [joinTriple, List.append_assoc]
  have hdotzip : notDigitHead (".zip".toList) := by
    show Char.isDigit '.' = false; decide
  have hts : tripleSplit (v ++ ".zip".toList) = some ((a, b, c), ".zip".toList) := by
    rw [hrest]; exact tripleSplit_append _ ha hb hc hdotzip
  unfold moduleFileMatch
  rw [hkey, dropLit_append]
  dsimp only
  rw [hts]
  simp [hjoin]

theorem mem_versionCandidates {mf mn cur : Chars} {files : List Chars}
    {f : VersionFile} (h : f ∈ versionCandidates mf mn cur files) :
    f.name ∈ files ∧ moduleFileMatch mf mn f.name = some f.version ∧
      f.version ≠ cur := by
  unfold versionCandidates at h
  rw [List.mem_filterMap] at h
  obtain ⟨k, hk, hg⟩ := h
  cases hm : moduleFileMatch mf mn k with
  | none => rw [hm] at hg; exact absurd hg (by simp)
  | some v =>
    rw [hm] at hg
    dsimp only at hg
    by_cases hv : v = cur
    · rw [if_pos hv] at hg; exact absurd hg (by simp)
    · rw [if_neg hv] at hg
      have hf : (⟨k, v⟩ : VersionFile) = f := by simpa using hg
      subst hf
      exact ⟨hk, hm, hv⟩

theorem jsSortVersions_eq_some {l s : List VersionFile}
    (h : jsSortVersions l = some s) :
    s = List.insertionSort versionDescRel l := by
  unfold jsSortVersions at h
  by_cases ht : sortThrows l
  · rw [if_pos ht] at h; exact absurd h (by simp)
  · rw [if_neg ht] at h
    have hs : List.insertionSort versionDescRel l = s := by simpa using h
    exact hs.symm

theorem jsSortVersions_of_ok {l : List VersionFile}
    (h : sortThrows l = false) :
    jsSortVersions l = some (List.insertionSort versionDescRel l) := by
  unfold jsSortVersions
  rw [if_neg (by simp [h])]

theorem versionsToDelete_mem {mf mn cur : Chars} {keep : JsNum}
    {files : List Chars} {sel : List VersionFile} {f : VersionFile}
    (hsel : versionsToDelete mf mn cur keep files = some sel) (hf : f ∈ sel) :
    f ∈ versionCandidates mf mn cur files := by
  unfold versionsToDelete at hsel
  by_cases hg : jsLeNum (versionCandidates mf mn cur files).length keep
  · rw [if_pos hg] at hsel
    have he : ([] : List VersionFile) = sel := by simpa using hsel
    rw [← he] at hf
    exact absurd hf (by simp)
  · rw [if_neg hg] at hsel
    cases hs : jsSortVersions (versionCandidates mf mn cur files) with
    | none => rw [hs] at hsel; exact absurd hsel (by simp)
    | some sorted =>
      rw [hs] at hsel
      have he : jsSlice sorted keep = sel := by simpa using hsel
      have hsort := jsSortVersions_eq_some hs
      rw [← he] at hf
      unfold jsSlice at hf
      have hf2 : f ∈ sorted := List.mem_of_mem_drop hf
      rw [hsort] at hf2
      exact (List.perm_insertionSort versionDescRel _).mem_iff.mp hf2

/-- C1: for every listing, module configuration and keepVersions value
(`NaN`, negative, zero and positive included), no member of any deletion set
`cleanupOldVersions` produces carries the version currently being published —
the filter loop drops the current version before the retention arithmetic
ever sees it; on runs where the version sort throws, no deletion set is
produced at all and nothing is deleted. -/
theorem c1_current_version_never_deleted (mf mn cur : Chars) (keep : JsNum)
    (files : List Chars) (sel : List VersionFile) (f : VersionFile)
    (hsel : versionsToDelete mf mn cur keep files = some sel)
    (hf : f ∈ sel) : f.version ≠ cur :=
  (mem_versionCandidates (versionsToDelete_mem hsel hf)).2.2

theorem c1_current_version_never_deleted_witness :
    versionsToDelete ("modules/m".toList) ("m".toList) ("1.0.0".toList)
        (JsNum.int 1)
        [("modules/m/m-0.1.0.zip".toList), ("modules/m/m-0.2.0.zip".toList)] =
      some [⟨"modules/m/m-0.1.0.zip".toList, "0.1.0".toList⟩] ∧
    (⟨"modules/m/m-0.1.0.zip".toList, "0.1.0".toList⟩ : VersionFile) ∈
        [(⟨"modules/m/m-0.1.0.zip".toList, "0.1.0".toList⟩ : VersionFile)] ∧
      ("0.1.0".toList : Chars) ≠ "1.0.0".toList :=
  ⟨by decide, by decide,
   c1_current_version_never_deleted ("modules/m".toList) ("m".toList)
     ("1.0.0".toList) (JsNum.int 1)
     [("modules/m/m-0.1.0.zip".toList), ("modules/m/m-0.2.0.zip".toList)]
     [⟨"modules/m/m-0.1.0.zip".toList, "0.1.0".toList⟩]
     ⟨"modules/m/m-0.1.0.zip".toList, "0.1.0".toList⟩ (by decide) (by decide)⟩

/-- C2, counterexample: on the listing `[m-01.0.0.zip, m-0.2.0.zip]` with
current 1.0.0 and keepVersions 1 there are two non-current matched candidates
(more than keepVersions), yet no deletion set is produced: the capture
`01.0.0` is rejected by semver, the comparator throws the invalid-version
error inside the sort, and `cleanupOldVersions` fails right after the
listing, deleting nothing — not the objects ranked after the first
keepVersions that the claim requires. -/
theorem c2_invalid_capture_counterexample :
    1 < (versionCandidates ("modules/m".toList) ("m".toList) ("1.0.0".toList)
        [("modules/m/m-01.0.0.zip".toList),
         ("modules/m/m-0.2.0.zip".toList)]).length ∧
    versionsToDelete ("modules/m".toList) ("m".toList) ("1.0.0".toList)
        (JsNum.int 1)
        [("modules/m/m-01.0.0.zip".toList),
         ("modules/m/m-0.2.0.zip".toList)] = none ∧
    cleanupOldVersions ("modules/m".toList) ("m".toList) ("1.0.0".toList)
        (JsNum.int 1)
        [("modules/m/m-01.0.0.zip".toList),
         ("modules/m/m-0.2.0.zip".toList)] (fun _ => false) =
      ([Event.listFiles ("modules/m".toList)], some Err.invalidVersion) := by
  decide

/-- C2, amended: when the non-current candidates outnumber `keepVersions`
and the version sort does not throw (every capture is one semver accepts, or
there is a single candidate), the deletion set is exactly the sorted
(descending) candidate list with its first `keepVersions` entries removed;
with two or more candidates among which some capture is semver-rejected, the
sort throws the invalid-version error and nothing is deleted.  On the two
spec examples — prior versions 0.7.0/0.8.0/0.9.0 with current 1.0.0 and
keep 2, and prior versions 1.0.0–1.3.0 with current 2.0.0 and keep 2 — the
deletion sets are exactly {0.7.0} and {1.0.0, 1.1.0}. -/
theorem c2_overflow_selection :
    (∀ (mf mn cur : Chars) (files : List Chars) (k : Nat),
        k < (versionCandidates mf mn cur files).length →
        sortThrows (versionCandidates mf mn cur files) = false →
        versionsToDelete mf mn cur (JsNum.int k) files =
          some ((List.insertionSort versionDescRel
              (versionCandidates mf mn cur files)).drop k)) ∧
    versionsToDelete ("modules/mymod".toList) ("mymod".toList)
        ("1.0.0".toList) (JsNum.int 2)
        [("modules/mymod/mymod-0.7.0.zip".toList),
         ("modules/mymod/mymod-0.8.0.zip".toList),
         ("modules/mymod/mymod-0.9.0.zip".toList)] =
      some [⟨"modules/mymod/mymod-0.7.0.zip".toList, "0.7.0".toList⟩] ∧
    versionsToDelete ("modules/vpc".toList) ("vpc".toList)
        ("2.0.0".toList) (JsNum.int 2)
        [("modules/vpc/vpc-1.0.0.zip".toList),
         ("modules/vpc/vpc-1.1.0.zip".toList),
         ("modules/vpc/vpc-1.2.0.zip".toList),
         ("modules/vpc/vpc-1.3.0.zip".toList),
         ("modules/vpc/vpc-2.0.0.zip".toList)] =
      some [⟨"modules/vpc/vpc-1.1.0.zip".toList, "1.1.0".toList⟩,
            ⟨"modules/vpc/vpc-1.0.0.zip".toList, "1.0.0".toList⟩] := by
  refine ⟨?_, by decide, by decide⟩
  intro mf mn cur files k hk hok
  unfold versionsToDelete
  have hg : jsLeNum (versionCandidates mf mn cur files).length
      (JsNum.int k) = false := by
    unfold jsLeNum
    simpa using hk
  rw [if_neg (by simp [hg])]
  rw [jsSortVersions_of_ok hok]
  unfold jsSlice sliceIndex
  have hnn : ¬ ((k : Int) < 0) := Int.not_lt.mpr (Int.natCast_nonneg k)
  simp [hnn]

theorem c2_overflow_selection_witness :
    0 < (versionCandidates ("modules/m".toList) ("m".toList) ("1.0.0".toList)
        [("modules/m/m-0.3.0.zip".toList)]).length ∧
    sortThrows (versionCandidates ("modules/m".toList) ("m".toList)
        ("1.0.0".toList) [("modules/m/m-0.3.0.zip".toList)]) = false ∧
    versionsToDelete ("modules/m".toList) ("m".toList) ("1.0.0".toList)
        (JsNum.int 0) [("modules/m/m-0.3.0.zip".toList)] =
      some ((List.insertionSort versionDescRel
          (versionCandidates ("modules/m".toList) ("m".toList)
            ("1.0.0".toList) [("modules/m/m-0.3.0.zip".toList)])).drop 0) :=
  ⟨by decide, by decide,
   c2_overflow_selection.1 ("modules/m".toList) ("m".toList) ("1.0.0".toList)
     [("modules/m/m-0.3.0.zip".toList)] 0 (by decide) (by decide)⟩

/-- C3: with at most `keepVersions` non-current candidates (zero included),
`cleanupOldVersions` returns without error, emits the "no old versions to
clean up" log naming the keep count and the candidate count, and performs no
deletion. -/
theorem c3_retention_floor_noop (mf mn cur : Chars) (k : Int)
    (files : List Chars) (deleteFails : Chars → Bool)
    (h : ((versionCandidates mf mn cur files).length : Int) ≤ k) :
    (cleanupOldVersions mf mn cur (JsNum.int k) files deleteFails).2 = none ∧
    Event.info (LogMsg.noOldVersions (JsNum.int k)
        (versionCandidates mf mn cur files).length) ∈
      (cleanupOldVersions mf mn cur (JsNum.int k) files deleteFails).1 ∧
    ∀ nm, Event.deleteFile nm ∉
      (cleanupOldVersions mf mn cur (JsNum.int k) files deleteFails).1 := by
  have hg : jsLeNum (versionCandidates mf mn cur files).length
      (JsNum.int k) = true := by
    unfold jsLeNum
    simpa using h
  unfold cleanupOldVersions
  rw [if_pos (by simp [hg])]
  refine ⟨rfl, by simp, ?_⟩
  intro nm
  simp

theorem c3_retention_floor_noop_witness :
    ((0 : Nat) : Int) ≤ 5 ∧
    ((cleanupOldVersions ("modules/m".toList) ("m".toList) ("1.0.0".toList)
          (JsNum.int 5) [] (fun _ => false)).2 = none ∧
      Event.info (LogMsg.noOldVersions (JsNum.int 5)
          (versionCandidates ("modules/m".toList) ("m".toList)
            ("1.0.0".toList) []).length) ∈
        (cleanupOldVersions ("modules/m".toList) ("m".toList) ("1.0.0".toList)
          (JsNum.int 5) [] (fun _ => false)).1 ∧
      ∀ nm, Event.deleteFile nm ∉
        (cleanupOldVersions ("modules/m".toList) ("m".toList) ("1.0.0".toList)
          (JsNum.int 5) [] (fun _ => false)).1) :=
  ⟨by decide,
   c3_retention_floor_noop ("modules/m".toList) ("m".toList) ("1.0.0".toList)
     5 [] (fun _ => false) (by decide)⟩

/-- C4: any key the parser matches is exactly
`<folder>/<moduleName>-<version>.zip` with a plain numeric triple as version
(so every other key yields no match and is silently excluded), and in
particular module `foo` matches neither `modules/foo/foobar-1.0.0.zip` nor
`modules/foo/foo-bar-1.0.0.zip`. -/
theorem c4_parser_exclusion :
    (∀ mf mn key v : Chars, moduleFileMatch mf mn key = some v →
        key = mf ++ '/' :: (mn ++ '-' :: (v ++ ".zip".toList)) ∧
          isTriple v = true) ∧
    moduleFileMatch ("modules/foo".toList) ("foo".toList)
        ("modules/foo/foobar-1.0.0.zip".toList) = none ∧
    moduleFileMatch ("modules/foo".toList) ("foo".toList)
        ("modules/foo/foo-bar-1.0.0.zip".toList) = none :=
  ⟨fun _ _ _ _ h => moduleFileMatch_eq_some h, by decide, by decide⟩

theorem c4_parser_exclusion_witness :
    ("modules/foo/foo-1.2.3.zip".toList : Chars) =
        "modules/foo".toList ++ '/' ::
          ("foo".toList ++ '-' :: ("1.2.3".toList ++ ".zip".toList)) ∧
      isTriple ("1.2.3".toList) = true :=
  c4_parser_exclusion.1 ("modules/foo".toList) ("foo".toList)
    ("modules/foo/foo-1.2.3.zip".toList) ("1.2.3".toList) (by decide)

/-- C5, counterexample: `1.0.0-beta` is a syntactically valid semantic
version (`MAJOR.MINOR.PATCH[-PRERELEASE][+BUILD]`), yet the key built from it
does not match the version-name parser at all — the round trip claimed for
every valid semver string fails on pre-release forms. -/
theorem c5_round_trip_counterexample :
    semverValid ("1.0.0-beta".toList) = true ∧
    moduleFileMatch ("modules/foo".toList) ("foo".toList)
        ("modules/foo".toList ++ '/' ::
          ("foo".toList ++ '-' :: ("1.0.0-beta".toList ++ ".zip".toList))) =
      none := by decide

/-- C5, amended: for every version string of the plain numeric
`MAJOR.MINOR.PATCH` form (digit components only — the only shape the parser
pattern accepts), building the key `<folder>/<moduleName>-v.zip` and parsing
it back yields a match whose extracted version equals `v`. -/
theorem c5_round_trip_amended (mf mn v : Chars) (hv : isTriple v = true) :
    moduleFileMatch mf mn
        (mf ++ '/' :: (mn ++ '-' :: (v ++ ".zip".toList))) = some v :=
  moduleFileMatch_roundTrip mf mn v hv

theorem c5_round_trip_amended_witness :
    isTriple ("9.10.11".toList) = true ∧
    moduleFileMatch ("modules/bar".toList) ("bar".toList)
        ("modules/bar".toList ++ '/' ::
          ("bar".toList ++ '-' :: ("9.10.11".toList ++ ".zip".toList))) =
      some ("9.10.11".toList) :=
  ⟨by decide,
   c5_round_trip_amended ("modules/bar".toList) ("bar".toList)
     ("9.10.11".toList) (by decide)⟩

theorem tripleLe_refl (x : Nat × Nat × Nat) : tripleLe x x = true := by
  unfold tripleLe
  simp

/-- C6, counterexample: the candidate list parsed from
`[m-1.0.0.zip, m-01.0.0.zip, m-1.0.0.zip]` contains two candidates with
equal versions, yet `cleanupOldVersions` does not order them at all: the
capture `01.0.0` is semver-rejected, the comparator throws inside the sort,
and the run fails right after the listing with nothing ordered, preserved or
deleted — refuting the unconditional ordering/tie-break claim. -/
theorem c6_invalid_capture_counterexample :
    ((versionCandidates ("modules/m".toList) ("m".toList) ("2.0.0".toList)
        [("modules/m/m-1.0.0.zip".toList),
         ("modules/m/m-01.0.0.zip".toList),
         ("modules/m/m-1.0.0.zip".toList)]).map VersionFile.version =
      ["1.0.0".toList, "01.0.0".toList, "1.0.0".toList]) ∧
    jsSortVersions (versionCandidates ("modules/m".toList) ("m".toList)
        ("2.0.0".toList)
        [("modules/m/m-1.0.0.zip".toList),
         ("modules/m/m-01.0.0.zip".toList),
         ("modules/m/m-1.0.0.zip".toList)]) = none ∧
    cleanupOldVersions ("modules/m".toList) ("m".toList) ("2.0.0".toList)
        (JsNum.int 1)
        [("modules/m/m-1.0.0.zip".toList),
         ("modules/m/m-01.0.0.zip".toList),
         ("modules/m/m-1.0.0.zip".toList)] (fun _ => false) =
      ([Event.listFiles ("modules/m".toList)], some Err.invalidVersion) := by
  decide

/-- C6, amended: whenever the candidate sort completes (every capture is one
semver accepts, or there are fewer than two candidates), it orders by numeric
semantic-version precedence, descending — `[1.2.0, 1.10.0, 1.9.0]` sorts to
`[1.10.0, 1.9.0, 1.2.0]`, not the lexical string order — as a permutation
(no candidate dropped) in which two candidates with equal versions keep
their relative listing order; with two or more candidates among which some
capture is semver-rejected, the comparator throws instead of ordering. -/
theorem c6_sort_descending_stable :
    ((jsSortVersions
        (versionCandidates ("modules/m".toList) ("m".toList)
          ("2.0.0".toList)
          [("modules/m/m-1.2.0.zip".toList),
           ("modules/m/m-1.10.0.zip".toList),
           ("modules/m/m-1.9.0.zip".toList)])).map
        (List.map VersionFile.version) =
      some ["1.10.0".toList, "1.9.0".toList, "1.2.0".toList]) ∧
    (∀ l s : List VersionFile, jsSortVersions l = some s → s.Perm l) ∧
    (∀ (a b : VersionFile) (l s : List VersionFile),
        jsSortVersions l = some s → a.version = b.version →
        [a, b].Sublist l → [a, b].Sublist s) := by
  refine ⟨by decide, ?_, ?_⟩
  · intro l s hs
    rw [jsSortVersions_eq_some hs]
    exact List.perm_insertionSort versionDescRel l
  · intro a b l s hs hv hsub
    rw [jsSortVersions_eq_some hs]
    have hab : versionDescRel a b := by
      unfold versionDescRel
      rw [hv]
      exact tripleLe_refl _
    exact List.pair_sublist_insertionSort hab hsub

theorem c6_sort_descending_stable_witness :
    jsSortVersions
        [(⟨"k1".toList, "1.0.0".toList⟩ : VersionFile),
         ⟨"k3".toList, "2.0.0".toList⟩, ⟨"k2".toList, "1.0.0".toList⟩] =
      some [⟨"k3".toList, "2.0.0".toList⟩, ⟨"k1".toList, "1.0.0".toList⟩,
            ⟨"k2".toList, "1.0.0".toList⟩] ∧
    ((⟨"k1".toList, "1.0.0".toList⟩ : VersionFile).version =
        (⟨"k2".toList, "1.0.0".toList⟩ : VersionFile).version) ∧
    [(⟨"k1".toList, "1.0.0".toList⟩ : VersionFile),
        ⟨"k2".toList, "1.0.0".toList⟩].Sublist
      [⟨"k3".toList, "2.0.0".toList⟩, ⟨"k1".toList, "1.0.0".toList⟩,
       ⟨"k2".toList, "1.0.0".toList⟩] :=
  ⟨by decide, rfl,
   c6_sort_descending_stable.2.2 ⟨"k1".toList, "1.0.0".toList⟩
     ⟨"k2".toList, "1.0.0".toList⟩
     [⟨"k1".toList, "1.0.0".toList⟩, ⟨"k3".toList, "2.0.0".toList⟩,
      ⟨"k2".toList, "1.0.0".toList⟩]
     [⟨"k3".toList, "2.0.0".toList⟩, ⟨"k1".toList, "1.0.0".toList⟩,
      ⟨"k2".toList, "1.0.0".toList⟩] (by decide) rfl (by decide)⟩

/-- C7: when the post-upload existence check reports false, the whole run
fails with the upload-verification error for the destination key, and the
trace contains no listing and no deletion — the retention scan never runs. -/
theorem c7_verification_failure_aborts (options : ModuleOptions)
    (files : List Chars) (deleteFails : Chars → Bool) (fileHash : Chars) :
    (processModuleUpload options false files deleteFails fileHash).2 =
      Except.error (Err.uploadVerificationFailed
        (("modules/".toList ++ options.moduleName) ++ '/' ::
          (options.moduleName ++ '-' ::
            (options.moduleVersion ++ ".zip".toList)))) ∧
    (∀ p, Event.listFiles p ∉
        (processModuleUpload options false files deleteFails fileHash).1) ∧
    (∀ nm, Event.deleteFile nm ∉
        (processModuleUpload options false files deleteFails fileHash).1) := by
  refine ⟨rfl, ?_, ?_⟩ <;> intro x <;> simp [processModuleUpload, uploadToGCS]

/-- C8, counterexample: in the code the object is made public immediately
after the upload call and the existence verification runs after that, so on
any successful upload trace the existence check does not precede the
makePublic call — the claimed order (verify, then make public) is false. -/
theorem c8_verify_then_public_counterexample :
    (uploadToGCS true ("b".toList) ("modules/m/m-1.0.0.zip".toList)).1 =
      [Event.info (LogMsg.uploadingTo ("modules/m/m-1.0.0.zip".toList)),
       Event.upload ("modules/m/m-1.0.0.zip".toList),
       Event.makePublic ("modules/m/m-1.0.0.zip".toList),
       Event.existsCheck ("modules/m/m-1.0.0.zip".toList)] ∧
    ¬ eventBefore (Event.existsCheck ("modules/m/m-1.0.0.zip".toList))
        (Event.makePublic ("modules/m/m-1.0.0.zip".toList))
        (uploadToGCS true ("b".toList) ("modules/m/m-1.0.0.zip".toList)).1 := by
  constructor
  · rfl
  · unfold eventBefore
    decide

/-- C8, amended: the upload stage performs, in order, the upload with
metadata, then makes the object publicly retrievable, then verifies the
existence of the object — making the object public precedes the existence
verification. -/
theorem c8_upload_stage_order (existsAfterUpload : Bool)
    (bucketName dest : Chars) :
    (uploadToGCS existsAfterUpload bucketName dest).1 =
      [Event.info (LogMsg.uploadingTo dest), Event.upload dest,
       Event.makePublic dest, Event.existsCheck dest] := rfl

/-- C9: the deletion executor issues one delete per selected object,
sequentially in selector order, each preceded by its own log line naming the
object; with no failures every selected object is processed, and a failing
delete propagates as the error after which no further object is touched. -/
theorem c9_deletion_executor :
    (∀ (deleteFails : Chars → Bool) (sel : List VersionFile),
        (∀ f ∈ sel, deleteFails f.name = false) →
        runDeletes deleteFails sel = (sel.flatMap deleteEvents, none)) ∧
    (∀ (deleteFails : Chars → Bool) (p : List VersionFile) (f : VersionFile)
        (s : List VersionFile),
        (∀ g ∈ p, deleteFails g.name = false) → deleteFails f.name = true →
        runDeletes deleteFails (p ++ f :: s) =
          (p.flatMap deleteEvents ++ deleteEvents f,
           some (Err.deleteFailed f.name))) := by
  constructor
  · intro deleteFails sel h
    induction sel with
    | nil => rfl
    | cons f fs ih =>
      have hf : deleteFails f.name = false := h f (List.mem_cons_self f fs)
      have ih2 := ih (fun g hg => h g (List.mem_cons_of_mem f hg))
      simp [runDeletes, hf, ih2]
  · intro deleteFails p f s hp hf
    induction p with
    | nil => simp [runDeletes, hf]
    | cons g gs ih =>
      have hg : deleteFails g.name = false := hp g (List.mem_cons_self g gs)
      have ih2 := ih (fun x hx => hp x (List.mem_cons_of_mem g hx))
      simp [runDeletes, hg, ih2]

theorem c9_deletion_executor_witness :
    (∀ f ∈ [(⟨"modules/m/m-0.1.0.zip".toList, "0.1.0".toList⟩ : VersionFile)],
        (fun _ => false) f.name = false) ∧
    runDeletes (fun _ => false)
        [⟨"modules/m/m-0.1.0.zip".toList, "0.1.0".toList⟩] =
      ([(⟨"modules/m/m-0.1.0.zip".toList, "0.1.0".toList⟩ : VersionFile)].flatMap
        deleteEvents, none) :=
  ⟨by decide,
   c9_deletion_executor.1 (fun _ => false)
     [⟨"modules/m/m-0.1.0.zip".toList, "0.1.0".toList⟩] (by decide)⟩

/-- C10, counterexample: with keepVersions = `NaN` on the listing
`[w-01.0.0.zip, w-0.2.0.zip]` there are two non-current matched candidates,
yet not every one is selected for deletion: the capture `01.0.0` is
semver-rejected, the comparator throws inside the sort (reached because
`length <= NaN` is false), and `cleanupOldVersions` fails right after the
listing with nothing selected or deleted. -/
theorem c10_invalid_capture_counterexample :
    (versionCandidates ("modules/w".toList) ("w".toList) ("1.0.0".toList)
        [("modules/w/w-01.0.0.zip".toList),
         ("modules/w/w-0.2.0.zip".toList)]).length = 2 ∧
    versionsToDelete ("modules/w".toList) ("w".toList) ("1.0.0".toList)
        JsNum.nan
        [("modules/w/w-01.0.0.zip".toList),
         ("modules/w/w-0.2.0.zip".toList)] = none ∧
    cleanupOldVersions ("modules/w".toList) ("w".toList) ("1.0.0".toList)
        JsNum.nan
        [("modules/w/w-01.0.0.zip".toList),
         ("modules/w/w-0.2.0.zip".toList)] (fun _ => false) =
      ([Event.listFiles ("modules/w".toList)], some Err.invalidVersion) := by
  decide

/-- C10, amended: a keep-versions input with no leading digits parses to
`NaN`; the `keepVersions <= 0` guard in `validateInputs` does not fire on
`NaN` (an otherwise valid option record passes validation); the
candidate-count guard `length <= NaN` is false for every count; and whenever
the subsequent sort completes (every capture semver-accepted, or fewer than
two candidates), `slice(NaN)` starts at 0 and the deletion set is the whole
non-current candidate set — while with two or more candidates among which
some capture is semver-rejected, the sort throws and nothing is selected. -/
theorem c10_nan_keep_versions :
    inputKeepVersions ("abc".toList) = JsNum.nan ∧
    jsLeZero JsNum.nan = false ∧
    validateInputs
        ⟨"my-bucket".toList, "vpc".toList, "1.0.0".toList,
          "/work/mod".toList, true, JsNum.nan⟩ true = none ∧
    (∀ n : Nat, jsLeNum n JsNum.nan = false) ∧
    (∀ (mf mn cur : Chars) (files : List Chars) (sel : List VersionFile),
        versionsToDelete mf mn cur JsNum.nan files = some sel →
        sel.Perm (versionCandidates mf mn cur files)) := by
  refine ⟨by decide, rfl, by decide, fun n => rfl, ?_⟩
  intro mf mn cur files sel hsel
  unfold versionsToDelete at hsel
  rw [if_neg (by simp [jsLeNum])] at hsel
  cases hs : jsSortVersions (versionCandidates mf mn cur files) with
  | none => rw [hs] at hsel; exact absurd hsel (by simp)
  | some sorted =>
    rw [hs] at hsel
    have he : jsSlice sorted JsNum.nan = sel := by simpa using hsel
    rw [← he]
    unfold jsSlice sliceIndex
    dsimp only
    rw [List.drop_zero, jsSortVersions_eq_some hs]
    exact List.perm_insertionSort versionDescRel _

theorem c10_nan_keep_versions_witness :
    versionsToDelete ("modules/w".toList) ("w".toList) ("9.0.0".toList)
        JsNum.nan
        [("modules/w/w-0.1.0.zip".toList),
         ("modules/w/w-0.2.0.zip".toList)] =
      some [⟨"modules/w/w-0.2.0.zip".toList, "0.2.0".toList⟩,
            ⟨"modules/w/w-0.1.0.zip".toList, "0.1.0".toList⟩] ∧
    ([(⟨"modules/w/w-0.2.0.zip".toList, "0.2.0".toList⟩ : VersionFile),
      ⟨"modules/w/w-0.1.0.zip".toList, "0.1.0".toList⟩]).Perm
      (versionCandidates ("modules/w".toList) ("w".toList) ("9.0.0".toList)
        [("modules/w/w-0.1.0.zip".toList),
         ("modules/w/w-0.2.0.zip".toList)]) :=
  ⟨by decide,
   c10_nan_keep_versions.2.2.2.2 ("modules/w".toList) ("w".toList)
     ("9.0.0".toList)
     [("modules/w/w-0.1.0.zip".toList), ("modules/w/w-0.2.0.zip".toList)]
     [⟨"modules/w/w-0.2.0.zip".toList, "0.2.0".toList⟩,
      ⟨"modules/w/w-0.1.0.zip".toList, "0.1.0".toList⟩] (by decide)⟩
